import Mathlib

/-!
Shallow embedding of `src/qhttpsocket.cpp` (QHttpSocket / QHttpSocketPrivate):
a per-connection HTTP/1.x request/response adapter over a raw byte stream.

Strings (`QString` / `QByteArray`) are modelled as `List Char`; the `QMap`
used for request and response headers is modelled as an association list kept
in ascending key order (QMap iterates its entries in sorted key order).
Qt signal emissions are modelled by an `emitted` event list carried in the
state; bytes handed to the underlying socket's write primitive are collected
in `socketWritten`.
-/

namespace QHttp

/-- The `QHttpSocket::Error` (the error kinds used in qhttpsocket.cpp). -/
inductive Error where
  | None
  | MalformedRequestLine
  | MalformedRequestHeader
  | InvalidHttpVersion
  | IncompleteHeader
deriving DecidableEq

/-- Qt signals emitted by the socket, in emission order. -/
inductive Event where
  | requestHeadersParsed
  | readyRead
  | errorChanged (e : Error)
deriving DecidableEq

/-- Strings / byte arrays are modelled as lists of characters. -/
abbrev Str := List Char

/-- The CR LF sequence. -/
def crlf : Str := ['\r', '\n']

/-- The 4-byte header/body delimiter CR LF CR LF. -/
def delim : Str := ['\r', '\n', '\r', '\n']

/-- The `buffer.indexOf("\r\n\r\n")`: index of the first occurrence of
CR LF CR LF, `none` when absent (the C++ call returns -1). -/
def findDelim : Str → Option Nat
  | [] => none
  | c :: rest =>
    if (c :: rest).take 4 = delim then some 0
    else (findDelim rest).map (· + 1)

/-- The `QString::split("\r\n")`: split on each occurrence of CR LF, keeping
empty parts (the result is always non-empty). -/
def splitCRLF : Str → List Str
  | [] => [[]]
  | '\r' :: '\n' :: rest => [] :: splitCRLF rest
  | c :: rest =>
    match splitCRLF rest with
    | [] => [[c]]
    | f :: fs => (c :: f) :: fs

/-- The `QString::split(" ")`: split on each single space, keeping empty parts. -/
def splitSpace : Str → List Str
  | [] => [[]]
  | c :: rest =>
    if c = ' ' then [] :: splitSpace rest
    else
      match splitSpace rest with
      | [] => [[c]]
      | f :: fs => (c :: f) :: fs

/-- The `header.indexOf(":")`: index of the first colon, `none` when absent. -/
def findColon : Str → Option Nat
  | [] => none
  | c :: rest => if c = ':' then some 0 else (findColon rest).map (· + 1)

/-- The whitespace characters stripped by `QString::trimmed`. -/
def qIsSpace (c : Char) : Bool :=
  c = ' ' || c = '\t' || c = '\n' || c = '\x0b' || c = '\x0c' || c = '\r'

/-- The `QString::trimmed`: strip whitespace from both ends. -/
def trimL (s : Str) : Str :=
  ((s.dropWhile qIsSpace).reverse.dropWhile qIsSpace).reverse

/-- The `QString::toLower` (ASCII range, which is all the adapter relies on). -/
def toLowerL (s : Str) : Str := s.map Char.toLower

/-- The `QString` comparison: lexicographic on character code points. -/
def strLt : Str → Str → Bool
  | [], [] => false
  | [], _ :: _ => true
  | _ :: _, [] => false
  | a :: as, b :: bs => if a < b then true else if b < a then false else strLt as bs

/-- The `QMap<QString, QString>` modelled as an association list kept in
ascending key order (the order QMap iterates in). -/
abbrev StrMap := List (Str × Str)

/-- The `QMap::insert`: replaces the value when the key is present, otherwise
inserts at the sorted position. -/
def mapInsert (k v : Str) : StrMap → StrMap
  | [] => [(k, v)]
  | (k', v') :: rest =>
    if strLt k k' then (k, v) :: (k', v') :: rest
    else if strLt k' k then (k', v') :: mapInsert k v rest
    else (k, v) :: rest

/-- The `QMap::value`: the stored value, or the default-constructed empty
string when the key is absent. -/
def mapValue : StrMap → Str → Str
  | [], _ => []
  | (k', v') :: rest, k => if k = k' then v' else mapValue rest k

/-- The `QMap::keys`: the keys in iteration (ascending) order. -/
def mapKeys (m : StrMap) : List Str := m.map Prod.fst

/-- The whole per-connection state of `QHttpSocket` / `QHttpSocketPrivate`,
together with the observable interaction with the underlying socket. -/
structure State where
  error : Error
  errorString : Str
  requestHeadersRead : Bool
  requestMethod : Str
  requestUri : Str
  requestHeaders : StrMap
  responseStatusCode : Str
  responseHeaders : StrMap
  responseHeadersWritten : Bool
  buffer : Str
  emitted : List Event
  socketWritten : List Str
  socketClosed : Bool
deriving DecidableEq

/-- The state right after construction (`QHttpSocketPrivate` constructor). -/
def initialState : State :=
  { error := Error.None
    errorString := []
    requestHeadersRead := false
    requestMethod := []
    requestUri := []
    requestHeaders := []
    responseStatusCode := ("200 OK").data
    responseHeaders := []
    responseHeadersWritten := false
    buffer := []
    emitted := []
    socketWritten := []
    socketClosed := false }

/-- The message `abortWithError` stores for each kind; the `switch` has no
case for `None`, so the previous message is kept there. -/
def errorMessage (prev : Str) : Error → Str
  | Error.None => prev
  | Error.MalformedRequestLine => ("Malformed request line").data
  | Error.MalformedRequestHeader => ("Malformed request header").data
  | Error.InvalidHttpVersion => ("Invalid HTTP version").data
  | Error.IncompleteHeader => ("Incomplete header received").data

/-- The `QHttpSocketPrivate::abortWithError`: store the kind, derive the
message, and emit `errorChanged`. -/
def abortWithError (s : State) (socketError : Error) : State :=
  { s with
    error := socketError
    errorString := errorMessage s.errorString socketError
    emitted := s.emitted ++ [Event.errorChanged socketError] }

/-- The `QHttpSocketPrivate::parseRequestLine`: split on spaces into exactly
three parts, check the version literal, then store method and URI. -/
def parseRequestLine (s : State) (line : Str) : State :=
  match splitSpace line with
  | [method, uri, version] =>
    if version ≠ ("HTTP/1.0").data ∧ version ≠ ("HTTP/1.1").data then
      abortWithError s Error.InvalidHttpVersion
    else
      { s with requestMethod := method, requestUri := uri }
  | _ => abortWithError s Error.MalformedRequestLine

/-- The `QHttpSocketPrivate::parseRequestHeader`: find the first colon, then
insert the trimmed lower-cased key with the trimmed value. -/
def parseRequestHeader (s : State) (header : Str) : State :=
  match findColon header with
  | none => abortWithError s Error.MalformedRequestHeader
  | some index =>
    let key := toLowerL (trimL (header.take index))
    let value := trimL (header.drop (index + 1))
    { s with requestHeaders := mapInsert key value s.requestHeaders }

/-- The `QHttpSocketPrivate::parseRequestHeaders`: split the block on CR LF,
parse the first line as the request line and the rest as header lines.
`splitCRLF` never returns `[]`, so that branch is unreachable. -/
def parseRequestHeaders (s : State) (headers : Str) : State :=
  match splitCRLF headers with
  | [] => s
  | first :: rest => rest.foldl parseRequestHeader (parseRequestLine s first)

/-- The `QHttpSocketPrivate::onReadyRead`: append the newly arrived bytes, and
while headers are unread scan for CR LF CR LF; once found, parse the block,
drop it (and the delimiter) from the buffer, mark headers read and emit
`requestHeadersParsed`. After that, each arrival emits `readyRead`. -/
def onReadyRead (s : State) (chunk : Str) : State :=
  let s1 : State := { s with buffer := s.buffer ++ chunk }
  if s1.requestHeadersRead then
    { s1 with emitted := s1.emitted ++ [Event.readyRead] }
  else
    match findDelim s1.buffer with
    | none => s1
    | some index =>
      let s2 := parseRequestHeaders s1 (s1.buffer.take index)
      { s2 with
        buffer := s2.buffer.drop (index + 4)
        requestHeadersRead := true
        emitted := s2.emitted ++ [Event.requestHeadersParsed] }

/-- The string `QHttpSocketPrivate::writeResponseHeaders` builds: the
status line, then for each response header (in QMap iteration order)
`name + ": " + value`, with no terminator after a header line. -/
def serializeResponseHeaders (s : State) : Str :=
  s.responseHeaders.foldl
    (fun headers kv => headers ++ (kv.1 ++ (": ").data ++ kv.2))
    (("HTTP/1.0 ").data ++ s.responseStatusCode ++ crlf)

/-- The `QHttpSocketPrivate::writeResponseHeaders`: builds the header string
into a local variable and sets the flag; the built string is never handed
to the socket (it is discarded when the function returns). -/
def writeResponseHeaders (s : State) : State :=
  let _headers := serializeResponseHeaders s
  { s with responseHeadersWritten := true }

/-- The `QHttpSocket::close`: write the response headers first if they have
not been written, then close the underlying socket. -/
def close (s : State) : State :=
  let s1 := if !s.responseHeadersWritten then writeResponseHeaders s else s
  { s1 with socketClosed := true }

/-- The `QHttpSocket::writeData`: write the response headers first if they
have not been written, then forward the payload to `socket.write`. -/
def writeData (s : State) (data : Str) : State :=
  let s1 := if !s.responseHeadersWritten then writeResponseHeaders s else s
  { s1 with socketWritten := s1.socketWritten ++ [data] }

/-- The `QHttpSocket::readData`: `none` (the C++ returns -1) before the request
headers are read; otherwise take `min(buffer size, maxlen)` characters off
the front of the buffer and return them with the updated state. -/
def readData (s : State) (maxlen : Nat) : Option (Str × State) :=
  if !s.requestHeadersRead then
    none
  else
    let size := min s.buffer.length maxlen
    some (s.buffer.take size, { s with buffer := s.buffer.drop size })

/-- The `QHttpSocket::setResponseStatusCode`: a usage warning is printed when
the headers were already written, but the assignment happens regardless. -/
def setResponseStatusCode (s : State) (statusCode : Str) : State :=
  { s with responseStatusCode := statusCode }

/-- The `QHttpSocket::setResponseHeader`: a usage warning is printed when the
headers were already written, but the insert happens regardless. -/
def setResponseHeader (s : State) (header value : Str) : State :=
  { s with responseHeaders := mapInsert header value s.responseHeaders }

/-- The `QHttpSocket::requestHeader`: look the lower-cased name up in the
parsed request headers. -/
def requestHeader (s : State) (header : Str) : Str :=
  mapValue s.requestHeaders (toLowerL header)

/-- One public operation on the adapter. -/
inductive Op where
  | arrive (chunk : Str)
  | write (data : Str)
  | closeOp
  | setStatus (code : Str)
  | setHeader (k v : Str)
  | readBody (n : Nat)

/-- Apply one operation to the state. -/
def applyOp (s : State) : Op → State
  | Op.arrive chunk => onReadyRead s chunk
  | Op.write data => writeData s data
  | Op.closeOp => close s
  | Op.setStatus code => setResponseStatusCode s code
  | Op.setHeader k v => setResponseHeader s k v
  | Op.readBody n =>
    match readData s n with
    | none => s
    | some (_, s') => s'

/-- Run a sequence of operations. -/
def run (s : State) (ops : List Op) : State := ops.foldl applyOp s

/-- The body payloads handed to the adapter's write operation, in order. -/
def writePayloads : List Op → List Str
  | [] => []
  | Op.arrive _ :: rest => writePayloads rest
  | Op.write data :: rest => data :: writePayloads rest
  | Op.closeOp :: rest => writePayloads rest
  | Op.setStatus _ :: rest => writePayloads rest
  | Op.setHeader _ _ :: rest => writePayloads rest
  | Op.readBody _ :: rest => writePayloads rest

/-! ### Facts about the delimiter search -/

theorem findDelim_bound : ∀ {l : Str} {i : Nat}, findDelim l = some i → i + 4 ≤ l.length
  | [], i, h => by simp [findDelim] at h
  | c :: rest, i, h => by
    rw [findDelim] at h
    by_cases hd : (c :: rest).take 4 = delim
    · rw [if_pos hd] at h
      cases h
      have := congrArg List.length hd
      simp [List.length_take, delim] at this
      simpa using this
    · rw [if_neg hd] at h
      rcases Option.map_eq_some'.mp h with ⟨j, hj, rfl⟩
      have := findDelim_bound hj
      simp only [List.length_cons]
      omega

theorem findDelim_append_some : ∀ {l : Str} {i : Nat} (l2 : Str),
    findDelim l = some i → findDelim (l ++ l2) = some i
  | [], i, l2, h => by simp [findDelim] at h
  | c :: rest, i, l2, h => by
    have hb := findDelim_bound h
    rw [findDelim] at h
    rw [List.cons_append, findDelim]
    have htake : ((c :: rest) ++ l2).take 4 = (c :: rest).take 4 :=
      List.take_append_of_le_length (le_trans (Nat.le_add_left 4 i) hb)
    rw [List.cons_append] at htake
    by_cases hd : (c :: rest).take 4 = delim
    · rw [if_pos hd] at h
      rw [htake, if_pos hd]
      exact h
    · rw [if_neg hd] at h
      rw [htake, if_neg hd]
      rcases Option.map_eq_some'.mp h with ⟨j, hj, rfl⟩
      rw [findDelim_append_some l2 hj]
      rfl

/-! ### Facts about the ordered header map -/

theorem strLt_irrefl : ∀ (a : Str), strLt a a = false
  | [] => rfl
  | c :: rest => by
    rw [strLt]
    simp [strLt_irrefl rest]

theorem strLt_trans : ∀ {a b c : Str}, strLt a b = true → strLt b c = true → strLt a c = true
  | [], [], _, h1, _ => by simp [strLt] at h1
  | [], _ :: _, [], _, h2 => by simp [strLt] at h2
  | [], _ :: _, _ :: _, _, _ => by simp [strLt]
  | _ :: _, [], _, h1, _ => by simp [strLt] at h1
  | _ :: _, _ :: _, [], _, h2 => by simp [strLt] at h2
  | a :: as, b :: bs, c :: cs, h1, h2 => by
    rw [strLt] at h1 h2 ⊢
    by_cases hab : a < b
    · by_cases hbc : b < c
      · simp [lt_trans hab hbc]
      · by_cases hcb : c < b
        · simp [hbc, hcb] at h2
        · have hbc' : b = c := le_antisymm (not_lt.mp hcb) (not_lt.mp hbc)
          subst hbc'
          simp [hab]
    · by_cases hba : b < a
      · simp [hab, hba] at h1
      · have hab' : a = b := le_antisymm (not_lt.mp hba) (not_lt.mp hab)
        subst hab'
        simp only [if_neg hab, if_neg hba] at h1
        by_cases hac : a < c
        · simp [hac]
        · by_cases hca : c < a
          · simp [hac, hca] at h2
          · simp only [if_neg hac, if_neg hca] at h2 ⊢
            exact strLt_trans h1 h2

theorem strLt_eq_of_not : ∀ {a b : Str}, strLt a b = false → strLt b a = false → a = b
  | [], [], _, _ => rfl
  | [], _ :: _, h1, _ => by simp [strLt] at h1
  | _ :: _, [], _, h2 => by simp [strLt] at h2
  | a :: as, b :: bs, h1, h2 => by
    rw [strLt] at h1 h2
    by_cases hab : a < b
    · simp [hab] at h1
    · by_cases hba : b < a
      · simp [hab, hba] at h2
      · have hab' : a = b := le_antisymm (not_lt.mp hba) (not_lt.mp hab)
        subst hab'
        simp only [if_neg hab, if_neg hba] at h1 h2
        rw [strLt_eq_of_not h1 h2]

theorem mapValue_mapInsert_self (k v : Str) : ∀ (m : StrMap), mapValue (mapInsert k v m) k = v
  | [] => by simp [mapInsert, mapValue]
  | (k', v') :: rest => by
    rw [mapInsert]
    by_cases h1 : strLt k k' = true
    · simp [h1, mapValue]
    · by_cases h2 : strLt k' k = true
      · have hne : k ≠ k' := by
          intro he
          subst he
          rw [strLt_irrefl] at h2
          exact Bool.false_ne_true h2
        simp only [Bool.not_eq_true] at h1
        simp [h1, h2, mapValue, hne, mapValue_mapInsert_self k v rest]
      · simp only [Bool.not_eq_true] at h1 h2
        simp [h1, h2, mapValue]

theorem mapKeys_cons (p : Str × Str) (m : StrMap) : mapKeys (p :: m) = p.1 :: mapKeys m := rfl

theorem mem_mapKeys_mapInsert {x k v : Str} :
    ∀ {m : StrMap}, x ∈ mapKeys (mapInsert k v m) → x = k ∨ x ∈ mapKeys m
  | [], h => by
    rw [mapInsert, mapKeys_cons] at h
    rcases List.mem_cons.mp h with h | h
    · exact Or.inl h
    · cases h
  | (k', v') :: rest, h => by
    rw [mapInsert] at h
    by_cases h1 : strLt k k' = true
    · rw [if_pos h1, mapKeys_cons] at h
      rcases List.mem_cons.mp h with h | h
      · exact Or.inl h
      · exact Or.inr h
    · by_cases h2 : strLt k' k = true
      · rw [if_neg h1, if_pos h2, mapKeys_cons] at h
        rcases List.mem_cons.mp h with h | h
        · exact Or.inr (by rw [mapKeys_cons]; exact List.mem_cons.mpr (Or.inl h))
        · rcases mem_mapKeys_mapInsert h with h | h
          · exact Or.inl h
          · exact Or.inr (by rw [mapKeys_cons]; exact List.mem_cons.mpr (Or.inr h))
      · rw [if_neg h1, if_neg h2, mapKeys_cons] at h
        rcases List.mem_cons.mp h with h | h
        · exact Or.inl h
        · exact Or.inr (by rw [mapKeys_cons]; exact List.mem_cons.mpr (Or.inr h))

/-- The keys of the header map, in strictly ascending order. -/
def keysSorted (m : StrMap) : Prop :=
  List.Pairwise (fun a b => strLt a b = true) (mapKeys m)

theorem keysSorted_mapInsert (k v : Str) :
    ∀ {m : StrMap}, keysSorted m → keysSorted (mapInsert k v m)
  | [], _ => by simp [mapInsert, keysSorted, mapKeys]
  | (k', v') :: rest, h => by
    rw [keysSorted, mapKeys] at h
    simp only [List.map_cons, List.pairwise_cons] at h
    obtain ⟨hk', hrest⟩ := h
    rw [mapInsert]
    by_cases h1 : strLt k k' = true
    · simp only [h1, if_true]
      rw [keysSorted, mapKeys]
      simp only [List.map_cons, List.pairwise_cons, List.mem_cons]
      refine ⟨?_, hk', hrest⟩
      rintro b (rfl | hb)
      · exact h1
      · exact strLt_trans h1 (hk' b hb)
    · by_cases h2 : strLt k' k = true
      · simp only [Bool.not_eq_true] at h1
        simp only [h1, h2, if_true, Bool.false_eq_true, if_false]
        rw [keysSorted, mapKeys]
        simp only [List.map_cons, List.pairwise_cons]
        refine ⟨?_, keysSorted_mapInsert k v hrest⟩
        intro b hb
        rcases mem_mapKeys_mapInsert hb with rfl | hb'
        · exact h2
        · exact hk' b hb'
      · simp only [Bool.not_eq_true] at h1 h2
        have : k = k' := strLt_eq_of_not h1 h2
        subst this
        simp only [h1, h2, Bool.false_eq_true, if_false]
        rw [keysSorted, mapKeys]
        simp only [List.map_cons, List.pairwise_cons]
        exact ⟨hk', hrest⟩

/-! ### Frame lemmas: what the parse chain leaves untouched -/

/-- How often `requestHeadersParsed` occurs in an event list. -/
def countHP (evs : List Event) : Nat := evs.count Event.requestHeadersParsed

theorem countHP_append_errorChanged (l : List Event) (e : Error) :
    countHP (l ++ [Event.errorChanged e]) = countHP l := by
  simp [countHP, List.count_append, List.count_cons, List.count_nil]

/-- The fields a parse step never changes; parsing also never emits
`requestHeadersParsed`. -/
def parseFrame (s t : State) : Prop :=
  t.buffer = s.buffer ∧
  t.requestHeadersRead = s.requestHeadersRead ∧
  t.responseStatusCode = s.responseStatusCode ∧
  t.responseHeaders = s.responseHeaders ∧
  t.responseHeadersWritten = s.responseHeadersWritten ∧
  t.socketWritten = s.socketWritten ∧
  t.socketClosed = s.socketClosed ∧
  countHP t.emitted = countHP s.emitted

theorem parseFrame_refl (s : State) : parseFrame s s := by
  simp [parseFrame]

theorem parseFrame_trans {s t u : State} (h1 : parseFrame s t) (h2 : parseFrame t u) :
    parseFrame s u := by
  obtain ⟨a1, a2, a3, a4, a5, a6, a7, a8⟩ := h1
  obtain ⟨b1, b2, b3, b4, b5, b6, b7, b8⟩ := h2
  exact ⟨b1.trans a1, b2.trans a2, b3.trans a3, b4.trans a4, b5.trans a5, b6.trans a6,
    b7.trans a7, b8.trans a8⟩

theorem abortWithError_parseFrame (s : State) (e : Error) :
    parseFrame s (abortWithError s e) := by
  simp [parseFrame, abortWithError, countHP_append_errorChanged]

theorem parseRequestLine_parseFrame (s : State) (line : Str) :
    parseFrame s (parseRequestLine s line) := by
  rw [parseRequestLine]
  split
  · split
    · exact abortWithError_parseFrame _ _
    · simp [parseFrame]
  · exact abortWithError_parseFrame _ _

theorem parseRequestHeader_parseFrame (s : State) (header : Str) :
    parseFrame s (parseRequestHeader s header) := by
  rw [parseRequestHeader]
  split
  · exact abortWithError_parseFrame _ _
  · simp [parseFrame]

theorem foldl_parseRequestHeader_parseFrame : ∀ (rest : List Str) (s : State),
    parseFrame s (rest.foldl parseRequestHeader s)
  | [], s => parseFrame_refl s
  | r :: rs, s => by
    rw [List.foldl_cons]
    exact parseFrame_trans (parseRequestHeader_parseFrame s r)
      (foldl_parseRequestHeader_parseFrame rs (parseRequestHeader s r))

theorem parseRequestHeaders_parseFrame (s : State) (headers : Str) :
    parseFrame s (parseRequestHeaders s headers) := by
  rw [parseRequestHeaders]
  split
  · exact parseFrame_refl s
  · exact parseFrame_trans (parseRequestLine_parseFrame _ _)
      (foldl_parseRequestHeader_parseFrame _ _)

/-! ### Congruence: parse results depend only on the parse-related fields -/

/-- The fields the header parser reads and writes. -/
def sameParse (s t : State) : Prop :=
  s.error = t.error ∧
  s.errorString = t.errorString ∧
  s.requestMethod = t.requestMethod ∧
  s.requestUri = t.requestUri ∧
  s.requestHeaders = t.requestHeaders

theorem sameParse_refl (s : State) : sameParse s s := by
  simp [sameParse]

theorem abortWithError_congr {s t : State} (h : sameParse s t) (e : Error) :
    sameParse (abortWithError s e) (abortWithError t e) := by
  obtain ⟨h1, h2, h3, h4, h5⟩ := h
  simp [sameParse, abortWithError, *]

theorem parseRequestLine_congr {s t : State} (h : sameParse s t) (line : Str) :
    sameParse (parseRequestLine s line) (parseRequestLine t line) := by
  rw [parseRequestLine, parseRequestLine]
  split
  · split
    · exact abortWithError_congr h _
    · obtain ⟨h1, h2, h3, h4, h5⟩ := h
      simp [sameParse, *]
  · exact abortWithError_congr h _

theorem parseRequestHeader_congr {s t : State} (h : sameParse s t) (header : Str) :
    sameParse (parseRequestHeader s header) (parseRequestHeader t header) := by
  rw [parseRequestHeader, parseRequestHeader]
  split
  · exact abortWithError_congr h _
  · obtain ⟨h1, h2, h3, h4, h5⟩ := h
    simp [sameParse, *]

theorem foldl_parseRequestHeader_congr : ∀ (rest : List Str) {s t : State}, sameParse s t →
    sameParse (rest.foldl parseRequestHeader s) (rest.foldl parseRequestHeader t)
  | [], _, _, h => h
  | r :: rs, s, t, h => by
    rw [List.foldl_cons, List.foldl_cons]
    exact foldl_parseRequestHeader_congr rs (parseRequestHeader_congr h r)

theorem parseRequestHeaders_congr {s t : State} (h : sameParse s t) (headers : Str) :
    sameParse (parseRequestHeaders s headers) (parseRequestHeaders t headers) := by
  rw [parseRequestHeaders, parseRequestHeaders]
  split
  · exact h
  · exact foldl_parseRequestHeader_congr _ (parseRequestLine_congr h _)

/-! ### Chunk-boundary invariance of the inbound state machine -/

/-- All observable parsing state: buffer, flag and parse fields. -/
def sameCore (s t : State) : Prop :=
  s.buffer = t.buffer ∧ s.requestHeadersRead = t.requestHeadersRead ∧ sameParse s t

theorem sameCore_trans {s t u : State} (h1 : sameCore s t) (h2 : sameCore t u) :
    sameCore s u := by
  obtain ⟨a1, a2, a3, a4, a5, a6, a7⟩ := h1
  obtain ⟨b1, b2, b3, b4, b5, b6, b7⟩ := h2
  exact ⟨a1.trans b1, a2.trans b2, a3.trans b3, a4.trans b4, a5.trans b5, a6.trans b6,
    a7.trans b7⟩

theorem onReadyRead_read {s : State} (hr : s.requestHeadersRead = true) (chunk : Str) :
    onReadyRead s chunk =
      { s with buffer := s.buffer ++ chunk, emitted := s.emitted ++ [Event.readyRead] } := by
  rw [onReadyRead]
  simp [hr]

theorem onReadyRead_none {s : State} (hr : s.requestHeadersRead = false) {chunk : Str}
    (hd : findDelim (s.buffer ++ chunk) = none) :
    onReadyRead s chunk = { s with buffer := s.buffer ++ chunk } := by
  rw [onReadyRead]
  simp [hr, hd]

theorem onReadyRead_some {s : State} (hr : s.requestHeadersRead = false) {chunk : Str} {i : Nat}
    (hd : findDelim (s.buffer ++ chunk) = some i) :
    onReadyRead s chunk =
      { parseRequestHeaders { s with buffer := s.buffer ++ chunk } ((s.buffer ++ chunk).take i) with
        buffer := (parseRequestHeaders { s with buffer := s.buffer ++ chunk }
          ((s.buffer ++ chunk).take i)).buffer.drop (i + 4)
        requestHeadersRead := true
        emitted := (parseRequestHeaders { s with buffer := s.buffer ++ chunk }
          ((s.buffer ++ chunk).take i)).emitted ++ [Event.requestHeadersParsed] } := by
  rw [onReadyRead]
  simp [hr, hd]

/-- Feeding `a` then `b` reaches the same parsing state as feeding `a ++ b`
at once (the emitted `readyRead` notifications may differ, nothing else). -/
theorem onReadyRead_merge (s : State) (a b : Str) :
    sameCore (onReadyRead (onReadyRead s a) b) (onReadyRead s (a ++ b)) := by
  by_cases hr : s.requestHeadersRead = true
  · simp [onReadyRead, hr, List.append_assoc, sameCore, sameParse]
  · rw [Bool.not_eq_true] at hr
    rcases hd : findDelim (s.buffer ++ a) with _ | i
    · rw [onReadyRead_none hr hd]
      have hb2 : s.buffer ++ a ++ b = s.buffer ++ (a ++ b) := List.append_assoc _ _ _
      have heq : onReadyRead { s with buffer := s.buffer ++ a } b = onReadyRead s (a ++ b) := by
        rw [onReadyRead, onReadyRead]
        dsimp only
        rw [hb2]
      rw [heq]
      exact ⟨rfl, rfl, sameParse_refl _⟩
    · have hbound := findDelim_bound hd
      have hd2 : findDelim (s.buffer ++ (a ++ b)) = some i := by
        rw [← List.append_assoc]
        exact findDelim_append_some b hd
      have htake : (s.buffer ++ (a ++ b)).take i = (s.buffer ++ a).take i := by
        rw [← List.append_assoc]
        exact List.take_append_of_le_length (by omega)
      have hdrop : (s.buffer ++ (a ++ b)).drop (i + 4) = (s.buffer ++ a).drop (i + 4) ++ b := by
        rw [← List.append_assoc]
        exact List.drop_append_of_le_length hbound
      have hsp : sameParse
          (parseRequestHeaders { s with buffer := s.buffer ++ a } ((s.buffer ++ a).take i))
          (parseRequestHeaders { s with buffer := s.buffer ++ (a ++ b) }
            ((s.buffer ++ (a ++ b)).take i)) := by
        rw [htake]
        exact parseRequestHeaders_congr (by simp [sameParse]) _
      have hfr1 := parseRequestHeaders_parseFrame
        { s with buffer := s.buffer ++ a } ((s.buffer ++ a).take i)
      have hfr2 := parseRequestHeaders_parseFrame
        { s with buffer := s.buffer ++ (a ++ b) } ((s.buffer ++ (a ++ b)).take i)
      rw [onReadyRead_some hr hd, onReadyRead_some hr hd2]
      rw [onReadyRead_read (by rfl) b]
      obtain ⟨c1, c2, c3, c4, c5⟩ := hsp
      refine ⟨?_, rfl, c1, c2, c3, c4, c5⟩
      show (parseRequestHeaders { s with buffer := s.buffer ++ a }
          ((s.buffer ++ a).take i)).buffer.drop (i + 4) ++ b =
        (parseRequestHeaders { s with buffer := s.buffer ++ (a ++ b) }
          ((s.buffer ++ (a ++ b)).take i)).buffer.drop (i + 4)
      rw [hfr1.1, hfr2.1, hdrop]

theorem foldl_onReadyRead_merge : ∀ (cs : List Str) (s : State) (c : Str),
    sameCore (cs.foldl onReadyRead (onReadyRead s c)) (onReadyRead s (c ++ cs.flatten))
  | [], s, c => by
    rw [List.foldl_nil, List.flatten_nil, List.append_nil]
    exact ⟨rfl, rfl, sameParse_refl _⟩
  | b :: rest, s, c => by
    rw [List.foldl_cons, List.flatten_cons]
    exact sameCore_trans (foldl_onReadyRead_merge rest (onReadyRead s c) b)
      (onReadyRead_merge s c (b ++ rest.flatten))

/-- Chunk-boundary invariance: any chunking reaches the same parsing state
as a single delivery of the whole byte sequence. -/
theorem foldl_onReadyRead_join (chunks : List Str) :
    sameCore (chunks.foldl onReadyRead initialState) (onReadyRead initialState chunks.flatten) := by
  cases chunks with
  | nil =>
    rw [List.foldl_nil, List.flatten_nil]
    have hd : findDelim (initialState.buffer ++ []) = none := by decide
    rw [onReadyRead_none rfl hd]
    exact ⟨rfl, rfl, sameParse_refl _⟩
  | cons c cs => exact foldl_onReadyRead_merge cs initialState c

/-! ### Run-level invariants -/

theorem countHP_append_HP (l : List Event) :
    countHP (l ++ [Event.requestHeadersParsed]) = countHP l + 1 := by
  simp [countHP, List.count_append, List.count_cons, List.count_nil]

theorem countHP_append_readyRead (l : List Event) :
    countHP (l ++ [Event.readyRead]) = countHP l := by
  simp [countHP, List.count_append, List.count_cons, List.count_nil]

/-- The link between the number of `requestHeadersParsed` emissions, the
`requestHeadersRead` flag and the error field. -/
def notifInv (s : State) : Prop :=
  countHP s.emitted = (if s.requestHeadersRead = true then 1 else 0) ∧
  (s.error ≠ Error.None → s.requestHeadersRead = true)

theorem onReadyRead_notifInv {s : State} (h : notifInv s) (chunk : Str) :
    notifInv (onReadyRead s chunk) := by
  obtain ⟨h1, h2⟩ := h
  by_cases hr : s.requestHeadersRead = true
  · rw [onReadyRead_read hr chunk]
    refine ⟨?_, fun _ => hr⟩
    show countHP (s.emitted ++ [Event.readyRead]) = _
    rw [countHP_append_readyRead, h1]
  · rw [Bool.not_eq_true] at hr
    rcases hd : findDelim (s.buffer ++ chunk) with _ | i
    · rw [onReadyRead_none hr hd]
      exact ⟨h1, h2⟩
    · rw [onReadyRead_some hr hd]
      have hf := parseRequestHeaders_parseFrame { s with buffer := s.buffer ++ chunk }
        ((s.buffer ++ chunk).take i)
      refine ⟨?_, fun _ => rfl⟩
      show countHP ((parseRequestHeaders { s with buffer := s.buffer ++ chunk }
        ((s.buffer ++ chunk).take i)).emitted ++ [Event.requestHeadersParsed]) = 1
      rw [countHP_append_HP, hf.2.2.2.2.2.2.2]
      show countHP s.emitted + 1 = 1
      rw [h1, hr]
      rfl

theorem foldl_onReadyRead_notifInv : ∀ (chunks : List Str) {s : State}, notifInv s →
    notifInv (chunks.foldl onReadyRead s)
  | [], _, h => h
  | c :: cs, s, h => by
    rw [List.foldl_cons]
    exact foldl_onReadyRead_notifInv cs (onReadyRead_notifInv h c)

theorem onReadyRead_initial_flag (chunk : Str) :
    (onReadyRead initialState chunk).requestHeadersRead = (findDelim chunk).isSome := by
  rcases hd : findDelim chunk with _ | i
  · have hd' : findDelim (initialState.buffer ++ chunk) = none := by
      show findDelim ([] ++ chunk) = none
      rw [List.nil_append]
      exact hd
    rw [onReadyRead_none rfl hd']
    rfl
  · have hd' : findDelim (initialState.buffer ++ chunk) = some i := by
      show findDelim ([] ++ chunk) = some i
      rw [List.nil_append]
      exact hd
    rw [onReadyRead_some rfl hd']
    rfl

/-- The inbound path leaves the entire response/transport side untouched. -/
theorem onReadyRead_frame (s : State) (chunk : Str) :
    (onReadyRead s chunk).responseStatusCode = s.responseStatusCode ∧
    (onReadyRead s chunk).responseHeaders = s.responseHeaders ∧
    (onReadyRead s chunk).responseHeadersWritten = s.responseHeadersWritten ∧
    (onReadyRead s chunk).socketWritten = s.socketWritten ∧
    (onReadyRead s chunk).socketClosed = s.socketClosed := by
  by_cases hr : s.requestHeadersRead = true
  · rw [onReadyRead_read hr chunk]
    exact ⟨rfl, rfl, rfl, rfl, rfl⟩
  · rw [Bool.not_eq_true] at hr
    rcases hd : findDelim (s.buffer ++ chunk) with _ | i
    · rw [onReadyRead_none hr hd]
      exact ⟨rfl, rfl, rfl, rfl, rfl⟩
    · rw [onReadyRead_some hr hd]
      have hf := parseRequestHeaders_parseFrame { s with buffer := s.buffer ++ chunk }
        ((s.buffer ++ chunk).take i)
      exact ⟨hf.2.2.1, hf.2.2.2.1, hf.2.2.2.2.1, hf.2.2.2.2.2.1, hf.2.2.2.2.2.2.1⟩

/-- The error field either stays what it was or holds a real error kind:
nothing ever resets it to `None`. -/
def errSafe (s t : State) : Prop := t.error = s.error ∨ t.error ≠ Error.None

theorem errSafe_trans {s t u : State} (h1 : errSafe s t) (h2 : errSafe t u) : errSafe s u := by
  rcases h2 with h2 | h2
  · rcases h1 with h1 | h1
    · exact Or.inl (h2.trans h1)
    · exact Or.inr (h2 ▸ h1)
  · exact Or.inr h2

theorem parseRequestLine_errSafe (s : State) (line : Str) :
    errSafe s (parseRequestLine s line) := by
  rw [parseRequestLine]
  split
  · split
    · exact Or.inr (by simp [abortWithError])
    · exact Or.inl rfl
  · exact Or.inr (by simp [abortWithError])

theorem parseRequestHeader_errSafe (s : State) (header : Str) :
    errSafe s (parseRequestHeader s header) := by
  rw [parseRequestHeader]
  split
  · exact Or.inr (by simp [abortWithError])
  · exact Or.inl rfl

theorem foldl_parseRequestHeader_errSafe : ∀ (rest : List Str) (s : State),
    errSafe s (rest.foldl parseRequestHeader s)
  | [], s => Or.inl rfl
  | r :: rs, s => by
    rw [List.foldl_cons]
    exact errSafe_trans (parseRequestHeader_errSafe s r)
      (foldl_parseRequestHeader_errSafe rs (parseRequestHeader s r))

theorem parseRequestHeaders_errSafe (s : State) (headers : Str) :
    errSafe s (parseRequestHeaders s headers) := by
  rw [parseRequestHeaders]
  split
  · exact Or.inl rfl
  · exact errSafe_trans (parseRequestLine_errSafe _ _) (foldl_parseRequestHeader_errSafe _ _)

theorem onReadyRead_errSafe (s : State) (chunk : Str) : errSafe s (onReadyRead s chunk) := by
  by_cases hr : s.requestHeadersRead = true
  · rw [onReadyRead_read hr chunk]
    exact Or.inl rfl
  · rw [Bool.not_eq_true] at hr
    rcases hd : findDelim (s.buffer ++ chunk) with _ | i
    · rw [onReadyRead_none hr hd]
      exact Or.inl rfl
    · rw [onReadyRead_some hr hd]
      exact parseRequestHeaders_errSafe { s with buffer := s.buffer ++ chunk } _

/-! ### Effects of the write-side operations -/

theorem writeResponseHeaders_eq (s : State) :
    writeResponseHeaders s = { s with responseHeadersWritten := true } := rfl

theorem writeData_fields (s : State) (data : Str) :
    (writeData s data).socketWritten = s.socketWritten ++ [data] ∧
    (writeData s data).responseHeadersWritten = true ∧
    (writeData s data).error = s.error ∧
    (writeData s data).responseHeaders = s.responseHeaders ∧
    (writeData s data).responseStatusCode = s.responseStatusCode := by
  rw [writeData]
  by_cases hw : s.responseHeadersWritten = true
  · simp [hw, writeResponseHeaders_eq]
  · rw [Bool.not_eq_true] at hw
    simp [hw, writeResponseHeaders_eq]

theorem close_fields (s : State) :
    (close s).socketWritten = s.socketWritten ∧
    (close s).responseHeadersWritten = true ∧
    (close s).error = s.error ∧
    (close s).responseHeaders = s.responseHeaders ∧
    (close s).responseStatusCode = s.responseStatusCode ∧
    (close s).socketClosed = true := by
  rw [close]
  by_cases hw : s.responseHeadersWritten = true
  · simp [hw, writeResponseHeaders_eq]
  · rw [Bool.not_eq_true] at hw
    simp [hw, writeResponseHeaders_eq]

theorem readBody_fields (s : State) (n : Nat) :
    (applyOp s (Op.readBody n)).socketWritten = s.socketWritten ∧
    (applyOp s (Op.readBody n)).error = s.error ∧
    (applyOp s (Op.readBody n)).responseHeaders = s.responseHeaders ∧
    (applyOp s (Op.readBody n)).responseStatusCode = s.responseStatusCode := by
  rw [applyOp, readData]
  by_cases hr : s.requestHeadersRead = true
  · simp [hr]
  · rw [Bool.not_eq_true] at hr
    simp [hr]

theorem run_socketWritten : ∀ (ops : List Op) (s : State),
    (run s ops).socketWritten = s.socketWritten ++ writePayloads ops
  | [], s => by simp [run, writePayloads]
  | Op.arrive c :: rest, s => by
    rw [run, List.foldl_cons, writePayloads]
    have h := run_socketWritten rest (applyOp s (Op.arrive c))
    rw [run] at h
    rw [h]
    show (onReadyRead s c).socketWritten ++ writePayloads rest = _
    rw [(onReadyRead_frame s c).2.2.2.1]
  | Op.write d :: rest, s => by
    rw [run, List.foldl_cons, writePayloads]
    have h := run_socketWritten rest (applyOp s (Op.write d))
    rw [run] at h
    rw [h]
    show (writeData s d).socketWritten ++ writePayloads rest = _
    rw [(writeData_fields s d).1, List.append_assoc]
    rfl
  | Op.closeOp :: rest, s => by
    rw [run, List.foldl_cons, writePayloads]
    have h := run_socketWritten rest (applyOp s Op.closeOp)
    rw [run] at h
    rw [h]
    show (close s).socketWritten ++ writePayloads rest = _
    rw [(close_fields s).1]
  | Op.setStatus c :: rest, s => by
    rw [run, List.foldl_cons, writePayloads]
    have h := run_socketWritten rest (applyOp s (Op.setStatus c))
    rw [run] at h
    rw [h]
    rfl
  | Op.setHeader k v :: rest, s => by
    rw [run, List.foldl_cons, writePayloads]
    have h := run_socketWritten rest (applyOp s (Op.setHeader k v))
    rw [run] at h
    rw [h]
    rfl
  | Op.readBody n :: rest, s => by
    rw [run, List.foldl_cons, writePayloads]
    have h := run_socketWritten rest (applyOp s (Op.readBody n))
    rw [run] at h
    rw [h, (readBody_fields s n).1]

theorem applyOp_errSafe (s : State) (op : Op) : errSafe s (applyOp s op) := by
  cases op with
  | arrive c => exact onReadyRead_errSafe s c
  | write d => exact Or.inl (writeData_fields s d).2.2.1
  | closeOp => exact Or.inl (close_fields s).2.2.1
  | setStatus c => exact Or.inl rfl
  | setHeader k v => exact Or.inl rfl
  | readBody n => exact Or.inl (readBody_fields s n).2.1

theorem run_error_ne : ∀ (ops : List Op) {s : State}, s.error ≠ Error.None →
    (run s ops).error ≠ Error.None
  | [], _, h => h
  | op :: rest, s, h => by
    rw [run, List.foldl_cons]
    have hstep : (applyOp s op).error ≠ Error.None := by
      rcases applyOp_errSafe s op with h' | h'
      · rw [h']
        exact h
      · exact h'
    have := run_error_ne rest hstep
    rw [run] at this
    exact this

theorem applyOp_responseHeaders (s : State) (op : Op) :
    (applyOp s op).responseHeaders = s.responseHeaders ∨
    ∃ k v, (applyOp s op).responseHeaders = mapInsert k v s.responseHeaders := by
  cases op with
  | arrive c => exact Or.inl (onReadyRead_frame s c).2.1
  | write d => exact Or.inl (writeData_fields s d).2.2.2.1
  | closeOp => exact Or.inl (close_fields s).2.2.2.1
  | setStatus c => exact Or.inl rfl
  | setHeader k v => exact Or.inr ⟨k, v, rfl⟩
  | readBody n => exact Or.inl (readBody_fields s n).2.2.1

theorem run_keysSorted : ∀ (ops : List Op) {s : State}, keysSorted s.responseHeaders →
    keysSorted (run s ops).responseHeaders
  | [], _, h => h
  | op :: rest, s, h => by
    rw [run, List.foldl_cons]
    have hstep : keysSorted (applyOp s op).responseHeaders := by
      rcases applyOp_responseHeaders s op with h' | ⟨k, v, h'⟩
      · rw [h']
        exact h
      · rw [h']
        exact keysSorted_mapInsert k v h
    have := run_keysSorted rest hstep
    rw [run] at this
    exact this

/-! ### Serialization shape -/

/-- The serialization format stated by the spec: the status line, then one
`name + ": " + value` item per header, in the order of the given list, with
no terminator after a header item. -/
def specSerializedHeaders (statusCode : Str) (headers : List (Str × Str)) : Str :=
  ("HTTP/1.0 ").data ++ statusCode ++ crlf ++
    (headers.map (fun kv => kv.1 ++ (": ").data ++ kv.2)).flatten

theorem foldl_serial : ∀ (l : List (Str × Str)) (init : Str),
    l.foldl (fun headers kv => headers ++ (kv.1 ++ (": ").data ++ kv.2)) init =
      init ++ (l.map (fun kv => kv.1 ++ (": ").data ++ kv.2)).flatten
  | [], init => by simp
  | kv :: rest, init => by
    rw [List.foldl_cons, foldl_serial rest, List.map_cons, List.flatten_cons,
      List.append_assoc]

/-! ## The claims -/

/-- C2: the response status line and header block are claimed to be written
to the outbound stream exactly once, before any body byte. Evaluating the
code at the failing input (a fresh connection whose application performs a
single body write, then closes): the flag is set, but the only bytes that
ever reach the socket write primitive are the body payload — the serialized
header string never does. -/
theorem C2_headers_never_written_to_stream :
    (writeData initialState (("hello").data)).responseHeadersWritten = true ∧
    (writeData initialState (("hello").data)).socketWritten = [("hello").data] ∧
    (close (writeData initialState (("hello").data))).socketWritten = [("hello").data] := by
  decide

/-- C3: over every operation sequence, the bytes handed to the underlying
socket's write primitive are exactly the body payloads of the adapter's
write operations; `writeResponseHeaders` only sets the flag and never
forwards the serialized header string. -/
theorem C3_transport_receives_only_body (ops : List Op) :
    (run initialState ops).socketWritten = writePayloads ops ∧
    (∀ s : State, writeResponseHeaders s = { s with responseHeadersWritten := true }) := by
  constructor
  · have h := run_socketWritten ops initialState
    simpa using h
  · exact writeResponseHeaders_eq

/-- C4 counterexample: after the first body write (`responseHeadersWritten`
is true), setting the status code or a response header still changes the
stored values — the mutation is applied, not ignored. -/
theorem C4_counterexample :
    (writeData initialState (("x").data)).responseHeadersWritten = true ∧
    (setResponseStatusCode (writeData initialState (("x").data))
        (("404 Not Found").data)).responseStatusCode = ("404 Not Found").data ∧
    (setResponseStatusCode (writeData initialState (("x").data))
        (("404 Not Found").data)).responseStatusCode ≠ ("200 OK").data ∧
    mapValue (setResponseHeader (writeData initialState (("x").data)) (("a").data)
        (("1").data)).responseHeaders (("a").data) = ("1").data := by
  decide

/-- C4 (amended): after the response headers were written, the setters only
print a usage warning — the mutation still goes through: the status code
takes the new value and the header map stores the new pair. -/
theorem C4_mutations_after_write_applied (s : State) (code k v : Str)
    (_h : s.responseHeadersWritten = true) :
    (setResponseStatusCode s code).responseStatusCode = code ∧
    mapValue (setResponseHeader s k v).responseHeaders k = v :=
  ⟨rfl, mapValue_mapInsert_self k v s.responseHeaders⟩

theorem C4_mutations_after_write_applied_witness :
    (setResponseStatusCode (writeData initialState (("x").data))
        (("404 Not Found").data)).responseStatusCode = ("404 Not Found").data ∧
    mapValue (setResponseHeader (writeData initialState (("x").data)) (("a").data)
        (("1").data)).responseHeaders (("a").data) = ("1").data :=
  C4_mutations_after_write_applied (writeData initialState (("x").data))
    (("404 Not Found").data) (("a").data) (("1").data) (by decide)

/-- C6 counterexample: inserting header "b" and then header "a" serializes
"a" first — QMap iterates in sorted key order, not insertion order. -/
theorem C6_counterexample :
    serializeResponseHeaders (setResponseHeader (setResponseHeader initialState
        (("b").data) (("2").data)) (("a").data) (("1").data)) =
      ("HTTP/1.0 200 OK\r\na: 1b: 2").data ∧
    serializeResponseHeaders (setResponseHeader (setResponseHeader initialState
        (("b").data) (("2").data)) (("a").data) (("1").data)) ≠
      ("HTTP/1.0 200 OK\r\nb: 2a: 1").data := by
  decide

/-- C6 (amended): the serialization is exactly the status line followed by
`name + ": " + value` per header with no line terminators, taking the
headers in ascending key order — the order of the map, which every
reachable state keeps sorted — rather than insertion order. -/
theorem C6_serialization_format_sorted (s : State) (ops : List Op) :
    serializeResponseHeaders s =
      specSerializedHeaders s.responseStatusCode s.responseHeaders ∧
    keysSorted (run initialState ops).responseHeaders := by
  constructor
  · rw [serializeResponseHeaders, specSerializedHeaders, foldl_serial, List.append_assoc]
  · exact run_keysSorted ops List.Pairwise.nil

/-- C1 counterexample: a complete header block with a malformed request
line ("XYZ" has one field, not three) still fires `requestHeadersParsed`
after the error notification — the notification is not success-only. -/
theorem C1_counterexample :
    (onReadyRead initialState (("XYZ\r\n\r\n").data)).error = Error.MalformedRequestLine ∧
    Event.requestHeadersParsed ∈ (onReadyRead initialState (("XYZ\r\n\r\n").data)).emitted ∧
    Event.errorChanged Error.MalformedRequestLine ∈
      (onReadyRead initialState (("XYZ\r\n\r\n").data)).emitted := by
  decide

/-- C1 (amended): over any inbound chunk sequence, `requestHeadersParsed`
fires exactly once as soon as the CR LF CR LF delimiter has arrived and
never again (zero times while it has not) — regardless of whether parsing
succeeded; in particular, when a parse failure set the error, the
notification has still fired. -/
theorem C1_headersParsed_fires_on_delimiter (chunks : List Str) :
    (countHP (chunks.foldl onReadyRead initialState).emitted
        = if findDelim chunks.flatten = none then 0 else 1) ∧
    ((chunks.foldl onReadyRead initialState).error ≠ Error.None →
      Event.requestHeadersParsed ∈ (chunks.foldl onReadyRead initialState).emitted) := by
  have hinv := foldl_onReadyRead_notifInv chunks
    (⟨rfl, fun h => absurd rfl h⟩ : notifInv initialState)
  obtain ⟨hc, he⟩ := hinv
  have hflag : (chunks.foldl onReadyRead initialState).requestHeadersRead
      = (findDelim chunks.flatten).isSome := by
    rw [(foldl_onReadyRead_join chunks).2.1]
    exact onReadyRead_initial_flag chunks.flatten
  constructor
  · rw [hc, hflag]
    rcases hfd : findDelim chunks.flatten with _ | i
    · rfl
    · rfl
  · intro herr
    have hf := he herr
    have h1 : countHP (chunks.foldl onReadyRead initialState).emitted = 1 := by
      rw [hc, hf]
      rfl
    have hpos : 0 < (chunks.foldl onReadyRead initialState).emitted.count
        Event.requestHeadersParsed := by
      have h2 : (chunks.foldl onReadyRead initialState).emitted.count
          Event.requestHeadersParsed = 1 := h1
      omega
    exact List.count_pos_iff.mp hpos

theorem C1_headersParsed_fires_on_delimiter_witness :
    Event.requestHeadersParsed ∈
      (([("XYZ\r\n\r\n").data] : List Str).foldl onReadyRead initialState).emitted :=
  (C1_headersParsed_fires_on_delimiter [("XYZ\r\n\r\n").data]).2 (by decide)

/-- C5 counterexample: a malformed request line ("BAD") followed by a
colon-free header line ("NoColon") sets the error twice; the second
failure overwrites the first, so the last failure wins, not the first. -/
theorem C5_counterexample :
    (onReadyRead initialState (("BAD\r\nNoColon\r\n\r\n").data)).emitted =
      [Event.errorChanged Error.MalformedRequestLine,
       Event.errorChanged Error.MalformedRequestHeader,
       Event.requestHeadersParsed] ∧
    (onReadyRead initialState (("BAD\r\nNoColon\r\n\r\n").data)).error =
      Error.MalformedRequestHeader := by
  decide

/-- C5 (amended): `abortWithError` overwrites the error field on every
parse failure, so the last failure's kind wins; the error is never reset
to `None` by any subsequent operation. -/
theorem C5_error_last_failure_wins (s : State) (e : Error) (ops : List Op)
    (h : s.error ≠ Error.None) :
    (abortWithError s e).error = e ∧ (run s ops).error ≠ Error.None :=
  ⟨rfl, run_error_ne ops h⟩

theorem C5_error_last_failure_wins_witness :
    (abortWithError (abortWithError initialState Error.MalformedRequestLine)
        Error.MalformedRequestHeader).error = Error.MalformedRequestHeader ∧
    (run (abortWithError initialState Error.MalformedRequestLine) [Op.closeOp]).error ≠
      Error.None :=
  C5_error_last_failure_wins (abortWithError initialState Error.MalformedRequestLine)
    Error.MalformedRequestHeader [Op.closeOp] (by decide)

/-- C7: feeding any chunking of a byte sequence through the data-arrival
path yields the same parsed request method, URI and headers as feeding the
whole sequence as a single chunk. -/
theorem C7_chunk_boundary_invariance (chunks : List Str) :
    (chunks.foldl onReadyRead initialState).requestMethod
        = (onReadyRead initialState chunks.flatten).requestMethod ∧
    (chunks.foldl onReadyRead initialState).requestUri
        = (onReadyRead initialState chunks.flatten).requestUri ∧
    (chunks.foldl onReadyRead initialState).requestHeaders
        = (onReadyRead initialState chunks.flatten).requestHeaders := by
  obtain ⟨h1, h2, h3, h4, h5, h6, h7⟩ := foldl_onReadyRead_join chunks
  exact ⟨h5, h6, h7⟩

/-- C8: reading fails (returns `none`, the embedding of -1) before the
request headers are read; afterwards it returns exactly
`min (buffer size) n` characters copied off the front of the buffer,
removes exactly that many, and leaves the rest intact. -/
theorem C8_readData_contract :
    (∀ (s : State) (n : Nat), s.requestHeadersRead = false → readData s n = none) ∧
    (∀ (s : State) (n : Nat), s.requestHeadersRead = true →
      readData s n = some (s.buffer.take (min s.buffer.length n),
        { s with buffer := s.buffer.drop (min s.buffer.length n) }) ∧
      (s.buffer.take (min s.buffer.length n)).length = min s.buffer.length n ∧
      s.buffer.take (min s.buffer.length n) ++ s.buffer.drop (min s.buffer.length n)
        = s.buffer) := by
  constructor
  · intro s n h
    rw [readData]
    simp [h]
  · intro s n h
    refine ⟨?_, ?_, List.take_append_drop _ _⟩
    · rw [readData]
      simp [h]
    · rw [List.length_take]
      omega

theorem C8_readData_contract_witness :
    readData initialState 5 = none ∧
    readData (onReadyRead initialState (("GET / HTTP/1.0\r\n\r\nhello").data)) 2 =
      some ((onReadyRead initialState
          (("GET / HTTP/1.0\r\n\r\nhello").data)).buffer.take
            (min (onReadyRead initialState
              (("GET / HTTP/1.0\r\n\r\nhello").data)).buffer.length 2),
        { onReadyRead initialState (("GET / HTTP/1.0\r\n\r\nhello").data) with
          buffer := (onReadyRead initialState
            (("GET / HTTP/1.0\r\n\r\nhello").data)).buffer.drop
              (min (onReadyRead initialState
                (("GET / HTTP/1.0\r\n\r\nhello").data)).buffer.length 2) }) :=
  ⟨C8_readData_contract.1 initialState 5 rfl,
   (C8_readData_contract.2 (onReadyRead initialState
     (("GET / HTTP/1.0\r\n\r\nhello").data)) 2 (by decide)).1⟩

/-- C9: request-line parsing splits on single spaces; a field count other
than exactly 3 aborts with `MalformedRequestLine`; a version other than the
literals HTTP/1.0 / HTTP/1.1 aborts with `InvalidHttpVersion`; on success
the first field becomes the method and the second the URI, verbatim; on any
failure (the abort path) neither field is touched. -/
theorem C9_request_line_parsing :
    (∀ (s : State) (line : Str), (splitSpace line).length ≠ 3 →
      parseRequestLine s line = abortWithError s Error.MalformedRequestLine) ∧
    (∀ (s : State) (line m u v : Str), splitSpace line = [m, u, v] →
      v ≠ ("HTTP/1.0").data → v ≠ ("HTTP/1.1").data →
      parseRequestLine s line = abortWithError s Error.InvalidHttpVersion) ∧
    (∀ (s : State) (line m u v : Str), splitSpace line = [m, u, v] →
      (v = ("HTTP/1.0").data ∨ v = ("HTTP/1.1").data) →
      parseRequestLine s line = { s with requestMethod := m, requestUri := u }) ∧
    (∀ (s : State) (e : Error), (abortWithError s e).requestMethod = s.requestMethod ∧
      (abortWithError s e).requestUri = s.requestUri) := by
  refine ⟨?_, ?_, ?_, fun s e => ⟨rfl, rfl⟩⟩
  · intro s line h
    rw [parseRequestLine]
    split
    · rename_i m u v heq
      rw [heq] at h
      simp at h
    · rfl
  · intro s line m u v hsp h0 h1
    rw [parseRequestLine]
    split
    · rename_i m' u' v' heq
      rw [hsp] at heq
      injection heq with hm heq
      injection heq with hu heq
      injection heq with hv _
      subst hm
      subst hu
      subst hv
      rw [if_pos ⟨h0, h1⟩]
    · rename_i hnom
      exact absurd hsp (by intro hh; exact hnom m u v hh)
  · intro s line m u v hsp hv
    rw [parseRequestLine]
    split
    · rename_i m' u' v' heq
      rw [hsp] at heq
      injection heq with hm heq
      injection heq with hu heq
      injection heq with hv' _
      subst hm
      subst hu
      subst hv'
      rw [if_neg]
      rcases hv with rfl | rfl
      · exact fun hc => hc.1 rfl
      · exact fun hc => hc.2 rfl
    · rename_i hnom
      exact absurd hsp (by intro hh; exact hnom m u v hh)

theorem C9_request_line_parsing_witness :
    parseRequestLine initialState (("GET /foo").data)
      = abortWithError initialState Error.MalformedRequestLine ∧
    parseRequestLine initialState (("GET /foo FOO/9.9").data)
      = abortWithError initialState Error.InvalidHttpVersion ∧
    parseRequestLine initialState (("GET /foo HTTP/1.1").data)
      = { initialState with requestMethod := ("GET").data, requestUri := ("/foo").data } :=
  ⟨C9_request_line_parsing.1 initialState (("GET /foo").data) (by decide),
   C9_request_line_parsing.2.1 initialState (("GET /foo FOO/9.9").data)
     (("GET").data) (("/foo").data) (("FOO/9.9").data) (by decide) (by decide) (by decide),
   C9_request_line_parsing.2.2.1 initialState (("GET /foo HTTP/1.1").data)
     (("GET").data) (("/foo").data) (("HTTP/1.1").data) (by decide) (Or.inr (by decide))⟩

/-- The map update a successful header-line parse performs: the trimmed
lower-cased key before the first colon, the trimmed value after it. -/
def insertedRequestHeaders (s : State) (header : Str) (j : Nat) : StrMap :=
  mapInsert (toLowerL (trimL (header.take j))) (trimL (header.drop (j + 1))) s.requestHeaders

/-- C10: header-line parsing aborts with `MalformedRequestHeader` when no
colon is present (map unchanged); otherwise it inserts the trimmed
lower-cased key with the trimmed value at the first colon, overwriting any
prior value for that key; the lookup lower-cases the queried name, so it is
case-insensitive and, since lines are processed in order, returns the value
of the last occurrence of the name. -/
theorem C10_header_line_parsing :
    (∀ (s : State) (header : Str), findColon header = none →
      parseRequestHeader s header = abortWithError s Error.MalformedRequestHeader) ∧
    (∀ (s : State) (header : Str) (j : Nat), findColon header = some j →
      parseRequestHeader s header
        = { s with requestHeaders := insertedRequestHeaders s header j }) ∧
    (∀ (m : StrMap) (k v : Str), mapValue (mapInsert k v m) k = v) ∧
    (∀ (s : State) (n1 n2 : Str), toLowerL n1 = toLowerL n2 →
      requestHeader s n1 = requestHeader s n2) ∧
    (∀ (s : State) (lines : List Str) (header : Str) (j : Nat) (k : Str),
      findColon header = some j →
      toLowerL (trimL (header.take j)) = toLowerL k →
      requestHeader ((lines ++ [header]).foldl parseRequestHeader s) k
        = trimL (header.drop (j + 1))) := by
  refine ⟨?_, ?_, fun m k v => mapValue_mapInsert_self k v m, ?_, ?_⟩
  · intro s header hc
    rw [parseRequestHeader, hc]
  · intro s header j hc
    rw [parseRequestHeader, hc]
    rfl
  · intro s n1 n2 h
    rw [requestHeader, requestHeader, h]
  · intro s lines header j k hc hkey
    rw [List.foldl_append, List.foldl_cons, List.foldl_nil, requestHeader,
      parseRequestHeader, hc]
    rw [← hkey]
    exact mapValue_mapInsert_self _ _ _

theorem C10_header_line_parsing_witness :
    parseRequestHeader initialState (("NoColon").data)
      = abortWithError initialState Error.MalformedRequestHeader ∧
    requestHeader (([("X-Test: a").data] ++ [("X-TEST: b").data]).foldl
        parseRequestHeader initialState) (("x-test").data)
      = trimL ((("X-TEST: b").data).drop (6 + 1)) :=
  ⟨C10_header_line_parsing.1 initialState (("NoColon").data) (by decide),
   C10_header_line_parsing.2.2.2.2 initialState [("X-Test: a").data]
     (("X-TEST: b").data) 6 (("x-test").data) (by decide) (by decide)⟩

end QHttp
